import Mathlib

/-!
Verification development for the ecommerce-web-crawler repository.

The definitions below are shallow embeddings of the Python sources:
  * `src/components/browser_crawler.py`   (robots rules, `_is_allowed`, `_crawl_page`)
  * `src/components/ecommerce_crawler.py` (`fetch_page` retry loop, `extract_links`,
    `crawl` priority loop, `_calculate_pagerank`)
  * `src/components/cloud_crawler.py`     (`fetch_page`, `analyze_robots_txt`)

I/O boundaries (HTTP transport, HTML parsing, `urljoin` URL resolution) are
abstracted as oracle parameters; the control flow, filtering and arithmetic of
the source are translated literally.  Python floats are modelled as exact
rationals (`ℚ`); no claim below depends on rounding behaviour.
-/

set_option autoImplicit false

namespace Crawler

/-! ### String helpers (modelling Python's `startswith`, `in`, `rstrip`) -/

/-- `listIsPre p s` is Python's `s.startswith(p)` on character lists. -/
def listIsPre : List Char → List Char → Bool
  | [], _ => true
  | _ :: _, [] => false
  | p :: ps, c :: cs => p = c && listIsPre ps cs

/-- Python's `s.startswith(p)` for strings. -/
def strStarts (s p : String) : Bool := listIsPre p.toList s.toList

/-- `listHasSub pat s` is Python's `pat in s` (substring test) on character lists. -/
def listHasSub (pat : List Char) : List Char → Bool
  | [] => listIsPre pat []
  | c :: cs => listIsPre pat (c :: cs) || listHasSub pat cs

/-- Python's `pat in s` (substring containment) for strings. -/
def strHasSub (s pat : String) : Bool := listHasSub pat.toList s.toList

/-- Python's `s.rstrip('*')`: remove all trailing `'*'` characters. -/
def rstripStar (s : String) : String :=
  ⟨(s.toList.reverse.dropWhile (· = '*')).reverse⟩

theorem listIsPre_nil (s : List Char) : listIsPre [] s = true := by
  cases s <;> rfl

theorem listIsPre_append (p t : List Char) : listIsPre p (p ++ t) = true := by
  induction p with
  | nil => exact listIsPre_nil t
  | cons c cs ih => simp [listIsPre, ih]

theorem listIsPre_trans {p q s : List Char} (h₁ : listIsPre p q = true)
    (h₂ : listIsPre q s = true) : listIsPre p s = true := by
  induction p generalizing q s with
  | nil => exact listIsPre_nil s
  | cons c cs ih =>
    cases q with
    | nil => simp [listIsPre] at h₁
    | cons d ds =>
      cases s with
      | nil => simp [listIsPre] at h₂
      | cons e es =>
        simp only [listIsPre, Bool.and_eq_true, decide_eq_true_eq] at h₁ h₂ ⊢
        exact ⟨h₁.1.trans h₂.1, ih h₁.2 h₂.2⟩

theorem rstripStar_isPre (s : String) :
    listIsPre (rstripStar s).toList s.toList = true := by
  show listIsPre (s.toList.reverse.dropWhile (· = '*')).reverse s.toList = true
  have h : ∃ t, s.toList = (s.toList.reverse.dropWhile (· = '*')).reverse ++ t := by
    refine ⟨(s.toList.reverse.takeWhile (· = '*')).reverse, ?_⟩
    have := @List.takeWhile_append_dropWhile Char (· = '*') s.toList.reverse
    calc s.toList = s.toList.reverse.reverse := (List.reverse_reverse _).symm
      _ = ((s.toList.reverse.takeWhile (· = '*')) ++
            (s.toList.reverse.dropWhile (· = '*'))).reverse := by rw [this]
      _ = _ := by rw [List.reverse_append]
  obtain ⟨t, ht⟩ := h
  have hp := listIsPre_append (s.toList.reverse.dropWhile (· = '*')).reverse t
  rw [← ht] at hp
  exact hp

/-! ### Robots policy: `BrowserCrawler._is_allowed` (browser_crawler.py lines 223-242)

`robots_rules` starts as the empty dict `{}` (falsy) and is replaced by a dict
with keys `allowed` / `disallowed` after a successful parse; we model this with
`Option RobotsRules` (`none` = empty dict). -/

structure RobotsRules where
  allowed : List String
  disallowed : List String
  deriving DecidableEq, Repr

/-- One rule test from `_is_allowed`:
`allowed_path == '/' or path.startswith(allowed_path.rstrip('*'))`. -/
def ruleMatches (rule path : String) : Bool :=
  rule = "/" || strStarts path (rstripStar rule)

/-- `BrowserCrawler._is_allowed`, with the URL already reduced to its path
(`urlparse(url).path`). -/
def browserIsAllowed (rules : Option RobotsRules) (path : String) : Bool :=
  match rules with
  | none => true
  | some r =>
    if r.allowed.any (fun a => ruleMatches a path) then true
    else if r.disallowed.any (fun d => ruleMatches d path) then false
    else true

/-! ### Browser crawler: `_extract_links` and `_crawl_page`
(browser_crawler.py lines 244-429)

URL resolution (`urljoin`) and HTML parsing are I/O boundaries: the oracle
`BWorld` yields, per URL, either a fetched page (response status plus the
anchors of the rendered document, with hrefs already resolved to absolute
URLs) or `none` for a navigation exception (caught and logged by the source).
A URL is represented by its parsed components `host` (`urlparse(u).netloc`)
and `path` (`urlparse(u).path`). -/

structure Url where
  host : String
  path : String
  deriving DecidableEq, Repr

/-- A rendered anchor element: resolved target, inner text, `rel=nofollow`
flag, and whether the resolved URL has an `http://`/`https://` scheme. -/
structure BAnchor where
  target : Url
  text : String
  nofollow : Bool
  isHttp : Bool
  deriving DecidableEq, Repr

structure BPageDoc where
  status : Nat
  anchors : List BAnchor
  deriving Repr

def BWorld := Url → Option BPageDoc

/-- A row of `links_data` (`_extract_links` output). -/
structure BLink where
  source : Url
  target : Url
  text : String
  nofollow : Bool
  disallow : Bool
  deriving DecidableEq, Repr

/-- A row of `urls_data` (`_extract_page_data` output, claim-relevant fields). -/
structure BPage where
  url : Url
  responseCode : Nat
  level : Nat
  referer : Option Url
  deriving DecidableEq, Repr

/-- `BrowserCrawler._extract_links`: skip anchors that do not resolve to an
http(s) URL; record text, nofollow, and `disallow = not self._is_allowed(target)`. -/
def browserExtractLinks (rules : Option RobotsRules) (source : Url)
    (anchors : List BAnchor) : List BLink :=
  anchors.filterMap fun a =>
    if a.isHttp then
      some { source := source, target := a.target, text := a.text,
             nofollow := a.nofollow,
             disallow := !(browserIsAllowed rules a.target.path) }
    else none

/-- `BrowserCrawler._is_internal_link`: compares `urlparse(...).netloc`. -/
def isInternalLink (source target : Url) : Bool := source.host = target.host

/-- Mutable crawler state: `visited_urls`, `urls_data`, `links_data`. -/
structure BSt where
  visited : List Url
  urlsData : List BPage
  linksData : List BLink
  deriving Repr

/-- `_extract_page_data` (claim-relevant fields). -/
def mkBPage (url : Url) (doc : BPageDoc) (depth : Nat) (referer : Option Url) : BPage :=
  { url := url, responseCode := doc.status, level := depth, referer := referer }

/-- The recursive-descent loop over a page's links:
`for link in links: if self._is_internal_link(url, link['target']): await self._crawl_page(...)`.
`cp` is `_crawl_page` at the next recursion depth. -/
def browserCrawlKids (cp : BSt → Url → Option Url → BSt) (pageUrl : Url) :
    List BLink → BSt → BSt
  | [], st => st
  | l :: ls, st =>
    browserCrawlKids cp pageUrl ls
      (if isInternalLink pageUrl l.target then cp st l.target (some pageUrl) else st)

/-- `BrowserCrawler._crawl_page`.  `fuel` bounds the recursion depth (the
source recursion is cut by the `depth > max_depth` guard; any
`fuel > maxDepth + 1 - depth` gives the source behaviour). -/
def browserCrawlPage (w : BWorld) (rules : Option RobotsRules)
    (maxPages maxDepth : Nat) :
    Nat → BSt → Url → Nat → Option Url → BSt
  | 0, st, _, _, _ => st
  | fuel + 1, st, url, depth, referer =>
    if maxPages ≤ st.visited.length then st
    else if maxDepth < depth then st
    else if url ∈ st.visited then st
    else if !(browserIsAllowed rules url.path) then st
    else
      let st₁ : BSt := { st with visited := url :: st.visited }
      match w url with
      | none => st₁  -- exception inside the try block is caught; url stays visited
      | some doc =>
        let st₂ : BSt := { st₁ with urlsData := st₁.urlsData ++ [mkBPage url doc depth referer] }
        if depth < maxDepth then
          let links := browserExtractLinks rules url doc.anchors
          let st₃ : BSt := { st₂ with linksData := st₂.linksData ++ links }
          browserCrawlKids
            (fun s u r => browserCrawlPage w rules maxPages maxDepth fuel s u (depth + 1) r)
            url links st₃
        else st₂

/-! ### Ecommerce crawler (ecommerce_crawler.py)

`EcommerceCrawler.crawl` keeps a list `urls_to_visit` of tuples
`(priority, (url, referer, level))` and each iteration removes the entry
returned by `max(urls_to_visit, key=lambda x: x[0])`.  Priorities are Python
floats, modelled as `ℚ`.  The HTTP transport and BeautifulSoup parse are the
oracle `EWorld`; `urljoin` is the oracle `join`. -/

/-- One frontier tuple `(priority, (url, referer, level))`. -/
structure EEntry where
  pri : ℚ
  url : String
  referer : Option String
  level : Nat
  deriving DecidableEq, Repr

/-- Python's `max(l, key=lambda x: x[0])`: the first entry attaining the
maximal priority (`>` comparison keeps the earlier element on ties). -/
def pyMax : List EEntry → Option EEntry
  | [] => none
  | x :: xs => some (xs.foldl (fun best y => if best.pri < y.pri then y else best) x)

/-- `max` followed by `urls_to_visit.remove(...)` (removes the first equal
tuple). -/
def pickMax (l : List EEntry) : Option (EEntry × List EEntry) :=
  (pyMax l).map fun e => (e, l.erase e)

/-- An anchor as seen by `extract_links`: raw `href`, text, and whether
`'nofollow' in a_tag.get('rel', [])`. -/
structure RawAnchor where
  href : String
  text : String
  nofollow : Bool
  deriving DecidableEq, Repr

/-- Outcome of `EcommerceCrawler.fetch_page` for one URL: either a parsed
page (status, title, meta description, anchors of the document, number of
products `extract_products` finds in the HTML) or the failure dictionary
(`response_code: 0`, error string) produced when the retries raise. -/
inductive EFetch where
  | ok (status : Nat) (title metaDesc : String) (anchors : List RawAnchor) (nProducts : Nat)
  | err (msg : String)
  deriving Repr

def EWorld := String → EFetch

/-- A row of `all_links` / `_links.csv`. -/
structure EEdge where
  source : String
  target : String
  text : String
  nofollow : Bool
  disallow : Bool
  priority : ℚ
  deriving DecidableEq, Repr

/-- A row of `pages_data` / `_urls.csv` (claim-relevant fields).
`title`/`metaDesc` are `none` for the failure dictionary, which carries no
such keys. -/
structure EPage where
  url : String
  responseCode : Nat
  level : Nat
  referer : Option String
  title : Option String
  metaDesc : Option String
  outlinks : Nat
  deriving DecidableEq, Repr

/-- Intermediate record of `extract_links` (ecommerce_crawler.py lines 762-797):
`disallow` is initialised `False` and never updated. -/
structure ELink where
  url : String
  text : String
  nofollow : Bool
  disallow : Bool
  deriving DecidableEq, Repr

/-- `EcommerceCrawler.extract_links`: skip empty / `javascript:` / `'#'`
hrefs, resolve relative hrefs with `urljoin`, keep only hrefs containing
`'amazon.com'`. -/
def ecomExtractLinks (join : String → String → String) (baseUrl : String)
    (anchors : List RawAnchor) : List ELink :=
  anchors.filterMap fun a =>
    if a.href = "" || strStarts a.href "javascript:" || a.href = "#" then none
    else
      let href := if strStarts a.href "http://" || strStarts a.href "https://"
                  then a.href else join baseUrl a.href
      if strHasSub href "amazon.com" then
        some { url := href, text := a.text, nofollow := a.nofollow, disallow := false }
      else none

/-- `is_product_page` check of `crawl` (lines 869-871). -/
def isProductPage (url : String) : Bool :=
  ["s?k=", "/dp/", "/gp/product/", "/gp/aw/d/", "/product/", "/slp/product/"].any
    (fun pat => strHasSub url pat)

/-- URL-pattern base priority (lines 914-926). -/
def patternPriority (url : String) : ℚ :=
  if strHasSub url "/dp/" then 80
  else if strHasSub url "s?k=" then 70
  else if strHasSub url "/gp/bestsellers/" then 60
  else if strHasSub url "/gp/new-releases/" then 50
  else if strHasSub url "/gp/goldbox/" then 40
  else 10

/-- `page_scores` dict: insert shadows older bindings, lookup takes the most
recent one (`page_scores.get(url, 0)`). -/
def lookupScore (scores : List (String × ℚ)) (url : String) : ℚ :=
  match scores.find? (fun p => p.1 = url) with
  | some p => p.2
  | none => 0

/-- `page_score` computed at lines 888-899:
`len(products)*10 + min(len(title),100)/10 + min(len(meta_description),200)/20`
(the title/meta terms are added only when `page_data.get(...)` is truthy). -/
def pageScoreOf (nProducts : Nat) (title metaDesc : Option String) : ℚ :=
  (nProducts : ℚ) * 10
    + (match title with
       | some t => if t = "" then 0 else (min t.length 100 : ℚ) / 10
       | none => 0)
    + (match metaDesc with
       | some m => if m = "" then 0 else (min m.length 200 : ℚ) / 20
       | none => 0)

/-- Session state of `EcommerceCrawler.crawl`. -/
structure ESt where
  visited : List String
  allLinks : List EEdge
  pagesData : List EPage
  frontier : List EEntry
  pageScores : List (String × ℚ)
  pageCount : Nat
  deriving Repr

structure ECfg where
  maxPages : Nat
  maxDepth : Nat

/-- Build the `pages_data` record for one fetched URL (`page_data` after
`pop('html')`/`pop('soup')` and the `outlinks` update). -/
def mkEPage (url : String) (referer : Option String) (level : Nat)
    (f : EFetch) (outlinks : Nat) : EPage :=
  match f with
  | .ok status title metaDesc _ _ =>
    { url := url, responseCode := status, level := level, referer := referer,
      title := some title, metaDesc := some metaDesc, outlinks := outlinks }
  | .err _ =>
    { url := url, responseCode := 0, level := level, referer := referer,
      title := none, metaDesc := none, outlinks := outlinks }

/-- Link priority (lines 910-936): pattern base, plus
`min(page_scores.get(current_url, 0) * 0.2, 20)`, minus `level * 10`,
minus 30 for nofollow/disallowed links. -/
def linkPriority (scores : List (String × ℚ)) (currentUrl : String)
    (level : Nat) (l : ELink) : ℚ :=
  patternPriority l.url
    + min (lookupScore scores currentUrl * (2/10)) 20
    - (level : ℚ) * 10
    - (if l.nofollow || l.disallow then 30 else 0)

/-- One iteration of the `while urls_to_visit and page_count < max_pages`
loop body (lines 837-989).  Caller guarantees the frontier is non-empty. -/
def ecomStep (w : EWorld) (join : String → String → String) (cfg : ECfg)
    (st : ESt) : ESt :=
  match pickMax st.frontier with
  | none => st
  | some (e, rest) =>
    if e.url ∈ st.visited ∨ cfg.maxDepth < e.level then
      { st with frontier := rest }
    else
      let visited := e.url :: st.visited
      let f := w e.url
      let anchors := match f with
        | .ok _ _ _ anchors _ => anchors
        | .err _ => []   -- failure dict has no 'html' key: html = '' so no links
      let nProducts := match f with
        | .ok _ _ _ _ n => if isProductPage e.url then n else 0
        | .err _ => 0
      let title : Option String := match f with
        | .ok _ t _ _ _ => some t
        | .err _ => none
      let metaDesc : Option String := match f with
        | .ok _ _ m _ _ => some m
        | .err _ => none
      let score := pageScoreOf nProducts title metaDesc
      let scores := (e.url, score) :: st.pageScores
      let links := ecomExtractLinks join e.url anchors
      let newEdges := links.map fun l =>
        { source := e.url, target := l.url, text := l.text, nofollow := l.nofollow,
          disallow := l.disallow, priority := linkPriority scores e.url e.level l : EEdge }
      let prioritized := links.map fun l =>
        { pri := linkPriority scores e.url e.level l, url := l.url,
          referer := some e.url, level := e.level + 1 : EEntry }
      let frontier := prioritized.foldl
        (fun fr en =>
          if en.url ∉ visited ∧ en.level ≤ cfg.maxDepth ∧
             fr.length < cfg.maxPages * 2 then fr ++ [en] else fr)
        rest
      { visited := visited,
        allLinks := st.allLinks ++ newEdges,
        pagesData := st.pagesData ++ [mkEPage e.url e.referer e.level f links.length],
        frontier := frontier,
        pageScores := scores,
        pageCount := st.pageCount + 1 }

/-- `while urls_to_visit and page_count < max_pages` termination test. -/
def ecomDone (cfg : ECfg) (st : ESt) : Prop :=
  st.frontier = [] ∨ ¬ st.pageCount < cfg.maxPages

instance (cfg : ECfg) (st : ESt) : Decidable (ecomDone cfg st) := by
  unfold ecomDone; infer_instance

/-- The crawl loop, fuel-indexed (the source loop terminates; see the
termination theorem below). -/
def ecomLoop (w : EWorld) (join : String → String → String) (cfg : ECfg) :
    Nat → ESt → ESt
  | 0, st => st
  | fuel + 1, st =>
    if ecomDone cfg st then st
    else ecomLoop w join cfg fuel (ecomStep w join cfg st)

/-- `search_url = f"https://www.amazon.com/s?k={query.replace(' ', '+')}"`. -/
def mkSearchUrl (query : String) : String :=
  "https://www.amazon.com/s?k=" ++ ⟨query.toList.map (fun c => if c = ' ' then '+' else c)⟩

/-- The reset state at the top of `crawl` with the seed frontier
`[(100, (search_url, None, 0))]`. -/
def ecomInit (query : String) : ESt :=
  { visited := [], allLinks := [], pagesData := [],
    frontier := [{ pri := 100, url := mkSearchUrl query, referer := none, level := 0 }],
    pageScores := [], pageCount := 0 }

/-- `EcommerceCrawler.crawl` up to the post-loop scoring phase. -/
def ecomCrawl (w : EWorld) (join : String → String → String) (cfg : ECfg)
    (query : String) (fuel : Nat) : ESt :=
  ecomLoop w join cfg fuel (ecomInit query)

/-! ### `fetch_page` retry loop (ecommerce_crawler.py lines 379-416,
cloud_crawler.py lines 141-190)

Both crawlers run `for attempt in range(max_retries)` with
`max_retries = 3`, `retry_delay = 2`.  A retry happens only when the request
raises, or when the response body contains a bot-challenge marker
(`"captcha" in text.lower() or "robot" in text.lower()`); the wait before the
next attempt is `retry_delay * (2 ** attempt)`.  The transport is the oracle
`attempt ↦ AttemptOut`. -/

def maxRetries : Nat := 3
def retryDelay : Nat := 2

/-- What one `session.get` call does: raise, or return a response with a
status code and a challenge-marker flag for its body. -/
inductive AttemptOut where
  | raised (err : String)
  | resp (status : Nat) (marker : Bool)
  deriving DecidableEq, Repr

/-- Final outcome of `fetch_page`'s retry loop: a response escaped the loop,
or the last attempt re-raised and the outer handler built the failure
dictionary carrying the error. -/
inductive FetchEnd where
  | completed (status : Nat) (marker : Bool)
  | failed (err : String)
  deriving DecidableEq, Repr

/-- The `response_code` recorded in the page dictionary for each outcome
(`response.status_code` on completion, `0` in the failure dictionary). -/
def endStatus : FetchEnd → Nat
  | .completed s _ => s
  | .failed _ => 0

structure RetryRes where
  attempts : Nat
  waits : List Nat
  outcome : FetchEnd
  deriving DecidableEq, Repr

/-- The `for attempt in range(max_retries)` loop.  `rem` is the number of
iterations `range` still has; `i` is `attempt`. -/
def retryAux (w : Nat → AttemptOut) : Nat → Nat → List Nat → RetryRes
  | 0, i, ws => ⟨i, ws, .failed ""⟩  -- range exhausted: not reachable from fetchRetry
  | rem + 1, i, ws =>
    match w i with
    | .raised e =>
      if i < maxRetries - 1 then
        retryAux w rem (i + 1) (ws ++ [retryDelay * 2 ^ i])
      else ⟨i + 1, ws, .failed e⟩          -- `raise`, caught by the outer handler
    | .resp s m =>
      if m ∧ i < maxRetries - 1 then      -- CAPTCHA branch: wait, new session, continue
        retryAux w rem (i + 1) (ws ++ [retryDelay * 2 ^ i])
      else ⟨i + 1, ws, .completed s m⟩    -- `break`

def fetchRetry (w : Nat → AttemptOut) : RetryRes :=
  retryAux w maxRetries 0 []

/-! ### Cache-busting query parameters (ecommerce_crawler.py lines 385-394,
cloud_crawler.py lines 147-156)

`params = {'_': int(time.time()*1000), 'rand': random.randint(1000, 9999)}`
when `'?' not in url`; `requests` appends them to the URL it puts on the
wire. -/

def hasQm (url : String) : Bool := url.toList.any (fun c => c = '?')

/-- The URL `session.get(url, params=params)` actually requests. -/
def requestUrl (url : String) (ts rand : Nat) : String :=
  if hasQm url then url
  else url ++ "?_=" ++ toString ts ++ "&rand=" ++ toString rand

/-! ### Robots analyzers (ecommerce_crawler.py lines 84-206,
cloud_crawler.py lines 699-816)

The robots.txt document is the oracle: `none` models a fetch exception,
`some (status, lines)` a response.  `parseFloat` models Python's `float(...)`
(returning `none` on `ValueError`). -/

/-- Python's `min` on two numbers (returns the first on ties); Mathlib's
lattice `min` on `ℚ` is avoided so terms stay kernel-reducible. -/
def pyMinQ (a b : ℚ) : ℚ := if a ≤ b then a else b

/-- Python's `max` on two numbers. -/
def pyMaxQ (a b : ℚ) : ℚ := if a ≤ b then b else a

/-- `line.split(':', 1)[1]` for a line known to contain a colon. -/
def afterColon (line : String) : String :=
  ⟨go line.toList⟩
where
  go : List Char → List Char
    | [] => []
    | c :: cs => if c = ':' then cs else go cs

/-- Python's `str.strip()`. -/
def pyStrip (s : String) : String :=
  ⟨((s.toList.dropWhile Char.isWhitespace).reverse.dropWhile Char.isWhitespace).reverse⟩

/-- Python's `str.lower()` (ASCII range, which is all the directives use). -/
def pyLower (s : String) : String := ⟨s.toList.map Char.toLower⟩

/-- `line.lower().startswith(directive)`, the test used by
`CloudCrawler.analyze_robots_txt`. -/
def lineIsDirective (directive line : String) : Bool :=
  strStarts (pyLower line) directive

/-- One pass of `for line in content.split('\n')` collecting the non-empty
values of one directive (cloud crawler keeps the original case of the value). -/
def collectDirective (directive : String) (lines : List String) : List String :=
  lines.filterMap fun line =>
    if lineIsDirective directive line then
      let path := pyStrip (afterColon line)
      if path = "" then none else some path
    else none

/-- The `crawl-delay` pass: every parseable value overwrites the previous one. -/
def collectDelay (parseFloat : String → Option ℚ) (lines : List String) : Option ℚ :=
  lines.foldl
    (fun acc line =>
      if lineIsDirective "crawl-delay:" line then
        match parseFloat (pyStrip (afterColon line)) with
        | some v => some v
        | none => acc
      else acc)
    none

/-- `CloudCrawler.analyze_robots_txt` result dictionary (claim-relevant
fields; every branch carries all of them). -/
structure CloudRobotsData where
  success : Bool
  crawlabilityScore : ℚ
  disallowedPaths : List String
  allowedPaths : List String
  sitemaps : List String
  crawlDelay : Option ℚ
  deriving Repr

/-- `CloudCrawler.analyze_robots_txt`: exception → score 0; non-200 → score
50 ("Neutral score"); otherwise parse and apply the scoring heuristic of
lines 764-782. -/
def cloudAnalyzeRobots (parseFloat : String → Option ℚ)
    (resp : Option (Nat × List String)) : CloudRobotsData :=
  match resp with
  | none =>
    { success := false, crawlabilityScore := 0, disallowedPaths := [],
      allowedPaths := [], sitemaps := [], crawlDelay := none }
  | some (status, lines) =>
    if status ≠ 200 then
      { success := false, crawlabilityScore := 50, disallowedPaths := [],
        allowedPaths := [], sitemaps := [], crawlDelay := none }
    else
      let dis := collectDirective "disallow:" lines
      let allw := collectDirective "allow:" lines
      let smaps := collectDirective "sitemap:" lines
      let delay := collectDelay parseFloat lines
      let score₁ : ℚ := 100 - pyMinQ 50 (dis.length * 2)
      let score₂ : ℚ := score₁ + pyMinQ 20 (allw.length * 2)
      let score₃ : ℚ := match delay with
        | some d => if d = 0 then score₂ else score₂ - pyMinQ 30 (d * 5)
        | none => score₂                       -- `if crawl_delay:` is falsy for 0.0
      let score₄ : ℚ := score₃ + pyMinQ 10 (smaps.length * 5)
      let score : ℚ := pyMaxQ 0 (pyMinQ 100 score₄)
      { success := true, crawlabilityScore := score, disallowedPaths := dis,
        allowedPaths := allw, sitemaps := smaps, crawlDelay := delay }

/-- `EcommerceCrawler.analyze_robots_txt` result: the error branches build a
dictionary with no path keys at all, only a `crawlability_score`. -/
inductive EcomRobotsData where
  | ok (crawlDelay : Option ℚ) (sitemaps disallowedPaths allowedPaths : List String)
      (crawlabilityScore : ℚ)
  | fetchError (crawlabilityScore : ℚ)
  deriving Repr

def EcomRobotsData.score : EcomRobotsData → ℚ
  | .ok _ _ _ _ s => s
  | .fetchError s => s

/-- `EcommerceCrawler.analyze_robots_txt`: the whole line is lowercased and
stripped before the directive tests (so recorded values are lowercase);
non-200 and exception both yield `crawlability_score: 100`
("No robots.txt = no restrictions" / "Error = assume no restrictions"). -/
def ecomAnalyzeRobots (parseFloat : String → Option ℚ)
    (resp : Option (Nat × List String)) : EcomRobotsData :=
  match resp with
  | none => .fetchError 100
  | some (status, rawLines) =>
    if status ≠ 200 then .fetchError 100
    else
      let lines := rawLines.map (fun l => pyLower (pyStrip l))
      let dis := collectDirective "disallow:" lines
      let allw := collectDirective "allow:" lines
      let smaps := collectDirective "sitemap:" lines
      let delay := collectDelay parseFloat lines
      let total := dis.length + allw.length
      let base : ℚ := if 0 < total then ((allw.length : ℚ) / total) * 100 else 100
      let score : ℚ := match delay with
        | some d =>
          if d = 0 then base
          else if 5 < d then base * (7/10)
          else if 2 < d then base * (9/10)
          else base
        | none => base
      .ok delay smaps dis allw score

/-! ### PageRank (`_calculate_pagerank`, ecommerce_crawler.py lines 1060-1084)

The source builds `G = nx.DiGraph()`, adds one `G.add_edge(source, target)`
per `all_links` row (a `DiGraph` keeps at most one edge per ordered pair),
calls `nx.pagerank(G, alpha=0.85)` and writes
`urls_df['url'].map(pagerank).fillna(0)`.

Modelled from the spec: `networkx.pagerank` is an external library, not part
of this repository.  Following §4.5 of the specification it is embedded as
the damped power iteration from the uniform distribution in which a dangling
node (no outgoing edges) redistributes its whole score uniformly over all
nodes, iterated a fixed number of rounds. -/

def damping : ℚ := 85 / 100

/-- `G.add_edge` for every link: a `DiGraph` collapses duplicate
(source, target) pairs, i.e. the graph is the set of distinct edges. -/
def graphOfLinks (links : List (String × String)) : Finset (String × String) :=
  links.toFinset

def prNodes (E : Finset (String × String)) : Finset String :=
  E.image Prod.fst ∪ E.image Prod.snd

def prSuccs (E : Finset (String × String)) (u : String) : Finset String :=
  (E.filter (fun p => p.1 = u)).image Prod.snd

/-- Modelled from the spec: the share of `x u` that `nx.pagerank`'s
iteration sends from node `u` to node `v` — `1/outdeg(u)` along each edge,
or `1/n` to every node if `u` is dangling (spec §4.5). -/
def prContrib (E : Finset (String × String)) (u v : String) : ℚ :=
  if prSuccs E u = ∅ then 1 / (prNodes E).card
  else if v ∈ prSuccs E u then 1 / (prSuccs E u).card
  else 0

/-- Modelled from the spec: one damped power-iteration step of
`nx.pagerank` (spec §4.5), with uniform random-jump probability
`(1 − damping)/n`. -/
def prNext (E : Finset (String × String)) (x : String → ℚ) (v : String) : ℚ :=
  (1 - damping) / (prNodes E).card
    + damping * ∑ u ∈ prNodes E, x u * prContrib E u v

/-- Modelled from the spec: the iterated scores of `nx.pagerank`, started
from the uniform distribution (spec §4.5 allows a fixed iteration count). -/
def prIter (E : Finset (String × String)) : Nat → (String → ℚ)
  | 0 => fun _ => 1 / (prNodes E).card
  | k + 1 => prNext E (prIter E k)

/-- Modelled from the spec: the score dictionary `nx.pagerank` returns —
its keys are exactly the graph's nodes. -/
def pagerankScores (links : List (String × String)) (iters : Nat)
    (u : String) : Option ℚ :=
  if u ∈ prNodes (graphOfLinks links) then some (prIter (graphOfLinks links) iters u)
  else none

/-- `urls_df['url'].map(pagerank).fillna(0)` for one row. -/
def importanceOf (pr : String → Option ℚ) (url : String) : ℚ :=
  (pr url).getD 0

/-! ## Claim C8: `_is_allowed` rule semantics -/

theorem rstripStar_append_star (s : String) :
    rstripStar (s ++ "*") = rstripStar s := by
  unfold rstripStar
  congr 1
  have h : (s ++ "*").toList = s.toList ++ ['*'] := by
    show (s ++ "*").data = s.data ++ ['*']
    rw [String.data_append]
  rw [h, List.reverse_append]
  show (List.dropWhile (fun x => decide (x = '*')) ('*' :: s.toList.reverse)).reverse = _
  rw [List.dropWhile_cons]
  simp

theorem strStarts_append_of_rstrip (s t : String) :
    strStarts (s ++ t) (rstripStar s) = true := by
  show listIsPre (rstripStar s).toList (s ++ t).toList = true
  have h : (s ++ t).toList = s.toList ++ t.toList := String.data_append s t
  rw [h]
  exact listIsPre_trans (rstripStar_isPre s) (listIsPre_append s.toList t.toList)

/-- **C8.** For every robots rule set and path, `_is_allowed` returns true
iff the path matches some allow rule or matches no disallow rule (allow
match wins, then disallow match denies, default allows); the rule `"/"`
matches every path; and a rule `s ++ "*"` matches `s` followed by any
continuation. -/
theorem c8_isAllowed_semantics :
    (∀ (r : RobotsRules) (path : String),
        browserIsAllowed (some r) path = true ↔
          ((∃ a ∈ r.allowed, ruleMatches a path = true) ∨
           (∀ d ∈ r.disallowed, ruleMatches d path = false)))
    ∧ (∀ path : String, ruleMatches "/" path = true)
    ∧ (∀ s t : String, ruleMatches (s ++ "*") (s ++ t) = true) := by
  refine ⟨fun r path => ?_, fun path => by simp [ruleMatches], fun s t => ?_⟩
  · unfold browserIsAllowed
    cases hA : r.allowed.any (fun a => ruleMatches a path) with
    | true =>
      simp only [hA, if_true, true_iff]
      exact Or.inl (by simpa using List.any_eq_true.mp hA)
    | false =>
      cases hD : r.disallowed.any (fun d => ruleMatches d path) with
      | true =>
        simp only [hA, hD, Bool.false_eq_true, if_false, if_true, false_iff]
        rintro (⟨a, ha, hm⟩ | hall)
        · have h1 : (r.allowed.any fun a => ruleMatches a path) = true :=
            List.any_eq_true.mpr ⟨a, ha, hm⟩
          rw [hA] at h1
          exact Bool.noConfusion h1
        · obtain ⟨d, hd, hm⟩ := List.any_eq_true.mp hD
          have h2 := hall d hd
          rw [hm] at h2
          exact Bool.noConfusion h2
      | false =>
        simp only [hA, hD, Bool.false_eq_true, if_false, true_iff]
        refine Or.inr (fun d hd => ?_)
        by_contra hne
        have h3 : (r.disallowed.any fun d => ruleMatches d path) = true :=
          List.any_eq_true.mpr ⟨d, hd, by simpa using hne⟩
        rw [hD] at h3
        exact Bool.noConfusion h3
  · unfold ruleMatches
    rw [rstripStar_append_star, strStarts_append_of_rstrip]
    simp

/-! ## Claim C7 (corrected): permissive fallback policies -/

/-- A concrete stand-in for Python's `float()` used in closed statements. -/
def noFloat : String → Option ℚ := fun _ => none

/-- **C7, counterexample.** The claim says the fallback policy's
crawlability score is "interpreted as fully crawlable" (the score the
analyzers themselves use for "no restrictions" is 100): but the cloud
analyzer returns 50 for a non-200 robots response and 0 on a fetch
exception. -/
theorem c7_counterexample :
    (cloudAnalyzeRobots noFloat (some (503, []))).disallowedPaths = [] ∧
    (cloudAnalyzeRobots noFloat (some (503, []))).crawlabilityScore = 50 ∧
    (cloudAnalyzeRobots noFloat none).crawlabilityScore = 0 ∧
    ¬ ((50 : ℚ) = 100) ∧ ¬ ((0 : ℚ) = 100) := by
  refine ⟨rfl, rfl, rfl, by decide, by decide⟩

/-- **C7, amended.** When the robots document is unreachable (exception) or
non-200, every analyzer falls back to an empty disallow set and the crawl
proceeds; `_is_allowed` then returns true for every path (browser crawler,
whose `robots_rules` stays empty).  The reported crawlability score is 100
in the ecommerce analyzer but 50 (non-200) or 0 (exception) in the cloud
analyzer. -/
theorem c7_amended_permissive_fallback :
    (∀ path : String, browserIsAllowed none path = true)
    ∧ (∀ (pf : String → Option ℚ) (status : Nat) (lines : List String),
        status ≠ 200 →
        cloudAnalyzeRobots pf (some (status, lines)) =
          { success := false, crawlabilityScore := 50, disallowedPaths := [],
            allowedPaths := [], sitemaps := [], crawlDelay := none })
    ∧ (∀ pf : String → Option ℚ,
        cloudAnalyzeRobots pf none =
          { success := false, crawlabilityScore := 0, disallowedPaths := [],
            allowedPaths := [], sitemaps := [], crawlDelay := none })
    ∧ (∀ (pf : String → Option ℚ) (status : Nat) (lines : List String),
        status ≠ 200 → ecomAnalyzeRobots pf (some (status, lines)) = .fetchError 100)
    ∧ (∀ pf : String → Option ℚ, ecomAnalyzeRobots pf none = .fetchError 100) := by
  refine ⟨fun path => rfl, fun pf status lines h => ?_, fun pf => rfl,
    fun pf status lines h => ?_, fun pf => rfl⟩
  · unfold cloudAnalyzeRobots
    simp [h]
  · unfold ecomAnalyzeRobots
    simp [h]

/-- **C7, witness** for the amended theorem's hypotheses, at status 503. -/
theorem c7_amended_witness :
    ((503 : Nat) ≠ 200) ∧
    cloudAnalyzeRobots noFloat (some (503, ["User-agent: *"])) =
      { success := false, crawlabilityScore := 50, disallowedPaths := [],
        allowedPaths := [], sitemaps := [], crawlDelay := none } ∧
    ecomAnalyzeRobots noFloat (some (503, ["User-agent: *"])) = .fetchError 100 :=
  ⟨by decide,
   c7_amended_permissive_fallback.2.1 noFloat 503 ["User-agent: *"] (by decide),
   c7_amended_permissive_fallback.2.2.2.1 noFloat 503 ["User-agent: *"] (by decide)⟩

/-! ## Claim C5 (corrected): retry only on exceptions and challenge markers -/

theorem retryAux_attempts_le (w : Nat → AttemptOut) :
    ∀ rem i ws, (retryAux w rem i ws).attempts ≤ i + rem := by
  intro rem
  induction rem with
  | zero => intro i ws; simp [retryAux]
  | succ rem ih =>
    intro i ws
    rw [retryAux]
    cases w i with
    | raised e =>
      by_cases h : i < maxRetries - 1
      · simp only [h, if_true]
        have hb := ih (i + 1) (ws ++ [retryDelay * 2 ^ i])
        omega
      · simp only [h, if_false]
        omega
    | resp s m =>
      by_cases h : m = true ∧ i < maxRetries - 1
      · simp only [h, and_self, if_pos, if_true]
        have hb := ih (i + 1) (ws ++ [retryDelay * 2 ^ i])
        omega
      · have h' : ¬ (m ∧ i < maxRetries - 1) := by
          intro hc; exact h ⟨hc.1, hc.2⟩
        simp only [h', if_false]
        omega

theorem retryAux_waits_shape (w : Nat → AttemptOut) :
    ∀ rem i, rem + i = maxRetries → i < maxRetries →
      (retryAux w rem i ((List.range i).map (fun j => retryDelay * 2 ^ j))).waits =
        (List.range
            ((retryAux w rem i ((List.range i).map (fun j => retryDelay * 2 ^ j))).attempts
              - 1)).map
          (fun j => retryDelay * 2 ^ j) := by
  intro rem
  induction rem with
  | zero => intro i h hi; omega
  | succ rem ih =>
    intro i h hi
    have hrange : (List.range i).map (fun j => retryDelay * 2 ^ j) ++ [retryDelay * 2 ^ i]
        = (List.range (i + 1)).map (fun j => retryDelay * 2 ^ j) := by
      rw [List.range_succ, List.map_append]
      rfl
    rw [retryAux]
    cases w i with
    | raised e =>
      by_cases hlt : i < maxRetries - 1
      · simp only [hlt, if_true]
        rw [hrange]
        exact ih (i + 1) (by omega) (by omega)
      · simp [hlt]
    | resp s m =>
      by_cases hm : m = true ∧ i < maxRetries - 1
      · simp only [hm, if_true, and_self, if_pos]
        rw [hrange]
        exact ih (i + 1) (by omega) (by omega)
      · have hm' : ¬ (m ∧ i < maxRetries - 1) := fun hc => hm ⟨hc.1, hc.2⟩
        simp [hm']

/-- **C5, counterexample.**  A permanent 503 response with no bot-challenge
marker in its body is *not* retried: `fetch_page` performs exactly one
attempt, waits never, and surfaces the fetch as completed with status 503
(rather than exhausting 3 retries and returning a status-0 failure as the
claim requires for transient HTTP statuses). -/
theorem c5_counterexample :
    fetchRetry (fun _ => .resp 503 false) =
      { attempts := 1, waits := [], outcome := .completed 503 false } ∧
    endStatus (fetchRetry (fun _ => .resp 503 false)).outcome = 503 := by
  exact ⟨rfl, rfl⟩

/-- **C5, amended.**  `fetch_page` makes at most 3 attempts and the waits
between attempts are `retry_delay * 2^attempt` = 2·2ⁱ; it retries *only*
when the request raises (connection/timeout error) or the response body
carries a bot-challenge marker — the HTTP status code never triggers a
retry, so any marker-free response (including 429/500/502/503/504) is
surfaced immediately as a completed fetch with that status after one
attempt; exhausting the retries on raised errors yields the failure record
(status 0) carrying the last error, while exhausting them on challenge
markers surfaces the last response as a completed fetch. -/
theorem c5_amended_retry_semantics (w : Nat → AttemptOut) :
    ((fetchRetry w).attempts ≤ maxRetries)
    ∧ ((fetchRetry w).waits =
        (List.range ((fetchRetry w).attempts - 1)).map (fun j => retryDelay * 2 ^ j))
    ∧ (∀ s, w 0 = .resp s false →
        fetchRetry w = { attempts := 1, waits := [], outcome := .completed s false })
    ∧ (∀ e₀ e₁ e₂, w 0 = .raised e₀ → w 1 = .raised e₁ → w 2 = .raised e₂ →
        fetchRetry w = { attempts := 3, waits := [2, 4], outcome := .failed e₂ } ∧
        endStatus (fetchRetry w).outcome = 0)
    ∧ (∀ s₀ s₁ s₂, w 0 = .resp s₀ true → w 1 = .resp s₁ true → w 2 = .resp s₂ true →
        fetchRetry w = { attempts := 3, waits := [2, 4], outcome := .completed s₂ true }) := by
  refine ⟨?_, ?_, ?_, ?_, ?_⟩
  · simpa using retryAux_attempts_le w maxRetries 0 []
  · simpa using retryAux_waits_shape w maxRetries 0 (by simp) (by simp [maxRetries])
  · intro s h0
    simp [fetchRetry, maxRetries, retryAux, h0]
  · intro e₀ e₁ e₂ h0 h1 h2
    have hF : fetchRetry w = { attempts := 3, waits := [2, 4], outcome := .failed e₂ } := by
      simp [fetchRetry, maxRetries, retryAux, h0, h1, h2, retryDelay]
    exact ⟨hF, by rw [hF]; rfl⟩
  · intro s₀ s₁ s₂ h0 h1 h2
    simp [fetchRetry, maxRetries, retryAux, h0, h1, h2, retryDelay]

/-- **C5, witness** for the amended theorem, on a transport that raises a
connection error on every attempt: 3 attempts, waits 2 and 4, failure
record with status 0 carrying the last error. -/
theorem c5_amended_witness :
    fetchRetry (fun _ => .raised "timeout") =
      { attempts := 3, waits := [2, 4], outcome := .failed "timeout" } ∧
    endStatus (fetchRetry (fun _ => .raised "timeout")).outcome = 0 :=
  ((c5_amended_retry_semantics (fun _ => .raised "timeout")).2.2.2.1
    "timeout" "timeout" "timeout" rfl rfl rfl)

/-! ## Claim C10: cache-busting query parameters -/

/-- **C10.**  For a URL with no `'?'`, the URL put on the wire carries the
appended `_`/`rand` parameters and so differs from the stored URL; URLs
already containing `'?'` are requested unmodified; and the page record key
(`page_data['url']`, the value checked against `visited_urls`) is the
original URL, not the requested one. -/
theorem c10_cache_busting :
    (∀ (url : String) (ts rand : Nat), hasQm url = false → requestUrl url ts rand ≠ url)
    ∧ (∀ (url : String) (ts rand : Nat), hasQm url = true → requestUrl url ts rand = url)
    ∧ (∀ (url : String) (referer : Option String) (level : Nat) (f : EFetch) (n : Nat),
        (mkEPage url referer level f n).url = url) := by
  refine ⟨?_, ?_, ?_⟩
  · intro url ts rand h heq
    have hlen := congrArg String.length heq
    rw [requestUrl, h] at hlen
    simp only [Bool.false_eq_true, if_false, String.length_append] at hlen
    have h3 : ("?_=" : String).length = 3 := rfl
    have h6 : ("&rand=" : String).length = 6 := rfl
    omega
  · intro url ts rand h
    simp [requestUrl, h]
  · intro url referer level f n
    cases f <;> rfl

/-- **C10, witness**: a concrete URL without `'?'` is requested with the
parameters appended, and one with `'?'` is requested as-is. -/
theorem c10_witness :
    (hasQm "https://www.amazon.com/dp/B0TEST" = false ∧
      requestUrl "https://www.amazon.com/dp/B0TEST" 1700000000000 1234 ≠
        "https://www.amazon.com/dp/B0TEST") ∧
    (hasQm "https://www.amazon.com/s?k=laptop" = true ∧
      requestUrl "https://www.amazon.com/s?k=laptop" 1700000000000 1234 =
        "https://www.amazon.com/s?k=laptop") :=
  ⟨⟨by decide, c10_cache_busting.1 "https://www.amazon.com/dp/B0TEST" 1700000000000 1234
      (by decide)⟩,
   ⟨by decide, c10_cache_busting.2.1 "https://www.amazon.com/s?k=laptop" 1700000000000 1234
      (by decide)⟩⟩

/-! ## Claim C3: highest priority first, FIFO tie-break

`urls_to_visit` is only ever appended to at the tail and pruned by
`remove`, so list position order is insertion order.  Python's `max` keeps
the earlier element on ties (it replaces the best only on a strict `>`),
and `remove` deletes the first tuple equal to the selected one. -/

theorem foldMax_split (xs : List EEntry) :
    ∀ x : EEntry,
      ∃ l₁ l₂,
        x :: xs = l₁ ++ (xs.foldl (fun best y => if best.pri < y.pri then y else best) x) :: l₂
        ∧ (∀ a ∈ x :: xs,
            a.pri ≤ (xs.foldl (fun best y => if best.pri < y.pri then y else best) x).pri)
        ∧ (∀ a ∈ l₁,
            a.pri < (xs.foldl (fun best y => if best.pri < y.pri then y else best) x).pri) := by
  induction xs with
  | nil =>
    intro x
    exact ⟨[], [], rfl, by simp, by simp⟩
  | cons y ys ih =>
    intro x
    simp only [List.foldl_cons]
    by_cases hxy : x.pri < y.pri
    · simp only [hxy, if_true]
      obtain ⟨l₁, l₂, heq, hle, hlt⟩ := ih y
      set m := ys.foldl (fun best y => if best.pri < y.pri then y else best) y with hm
      refine ⟨x :: l₁, l₂, ?_, ?_, ?_⟩
      · simpa using congrArg (x :: ·) heq
      · intro a ha
        rcases List.mem_cons.mp ha with rfl | ha'
        · exact le_trans (le_of_lt hxy) (hle y (List.mem_cons_self y ys))
        · exact hle a ha'
      · intro a ha
        rcases List.mem_cons.mp ha with rfl | ha'
        · exact lt_of_lt_of_le hxy (hle y (List.mem_cons_self y ys))
        · exact hlt a ha'
    · simp only [hxy, if_false]
      obtain ⟨l₁, l₂, heq, hle, hlt⟩ := ih x
      set m := ys.foldl (fun best y => if best.pri < y.pri then y else best) x with hm
      cases l₁ with
      | nil =>
        simp only [List.nil_append] at heq
        injection heq with h₁ h₂
        refine ⟨[], y :: ys, ?_, ?_, by simp⟩
        · simp [h₁]
        · intro a ha
          rcases List.mem_cons.mp ha with rfl | ha'
          · exact hle a (List.mem_cons_self a ys)
          · rcases List.mem_cons.mp ha' with rfl | ha''
            · exact le_trans (le_of_not_lt hxy) (hle x (List.mem_cons_self x ys))
            · exact hle a (List.mem_cons_of_mem x ha'')
      | cons z l₁' =>
        simp only [List.cons_append, List.cons.injEq] at heq
        obtain ⟨rfl, hys⟩ := heq
        refine ⟨x :: y :: l₁', l₂, ?_, ?_, ?_⟩
        · rw [List.cons_append, List.cons_append, ← hys]
        · intro a ha
          rcases List.mem_cons.mp ha with rfl | ha'
          · exact hle a (List.mem_cons_self a ys)
          · rcases List.mem_cons.mp ha' with rfl | ha''
            · exact le_trans (le_of_not_lt hxy) (hle x (List.mem_cons_self x ys))
            · exact hle a (List.mem_cons_of_mem x ha'')
        · intro a ha
          rcases List.mem_cons.mp ha with rfl | ha'
          · exact hlt a (List.mem_cons_self a l₁')
          · rcases List.mem_cons.mp ha' with rfl | ha''
            · exact lt_of_le_of_lt (le_of_not_lt hxy) (hlt x (List.mem_cons_self x l₁'))
            · exact hlt a (List.mem_cons_of_mem x ha'')

/-- The full specification of one `max` + `remove` scheduler selection. -/
theorem pickMax_spec (l : List EEntry) (hne : l ≠ []) :
    ∃ l₁ e l₂,
      l = l₁ ++ e :: l₂
      ∧ pickMax l = some (e, l₁ ++ l₂)
      ∧ (∀ a ∈ l, a.pri ≤ e.pri)
      ∧ (∀ a ∈ l₁, a.pri < e.pri) := by
  cases l with
  | nil => exact absurd rfl hne
  | cons x xs =>
    obtain ⟨l₁, l₂, heq, hle, hlt⟩ := foldMax_split xs x
    set m := xs.foldl (fun best y => if best.pri < y.pri then y else best) x with hm
    have hmem : m ∉ l₁ := by
      intro hmem
      exact absurd rfl (ne_of_lt (hlt m hmem))
    refine ⟨l₁, m, l₂, heq, ?_, hle, hlt⟩
    show (pyMax (x :: xs)).map (fun e => (e, (x :: xs).erase e)) = some (m, l₁ ++ l₂)
    have hpy : pyMax (x :: xs) = some m := by rw [hm]; rfl
    rw [hpy]
    show some (m, (x :: xs).erase m) = some (m, l₁ ++ l₂)
    congr 1
    rw [heq]
    rw [List.erase_append_right _ hmem, List.erase_cons_head]

/-- **C3.**  At each scheduler iteration with a non-empty frontier, the
entry selected by `max(urls_to_visit, key=...)` and deleted by `remove` is
one of maximal priority, and every entry positioned (i.e. inserted) before
it has strictly smaller priority — so among equal maximal priorities the
earliest-inserted entry is chosen, and the removed occurrence is exactly
the selected one.  Selection is a pure function of the frontier, so runs
on identical inputs pick identical entries. -/
theorem c3_priority_selection (l : List EEntry) (hne : l ≠ []) :
    ∃ l₁ e l₂,
      l = l₁ ++ e :: l₂
      ∧ pickMax l = some (e, l₁ ++ l₂)
      ∧ (∀ a ∈ l, a.pri ≤ e.pri)
      ∧ (∀ a ∈ l₁, a.pri < e.pri) :=
  pickMax_spec l hne

/-- **C3, witness**: a concrete three-entry frontier with a tie at the top
priority. -/
theorem c3_witness :
    (([⟨5, "a", none, 0⟩, ⟨9, "b", none, 1⟩, ⟨9, "c", none, 1⟩] : List EEntry) ≠ [])
    ∧ (∃ l₁ e l₂,
        ([⟨5, "a", none, 0⟩, ⟨9, "b", none, 1⟩, ⟨9, "c", none, 1⟩] : List EEntry)
          = l₁ ++ e :: l₂
        ∧ pickMax [⟨5, "a", none, 0⟩, ⟨9, "b", none, 1⟩, ⟨9, "c", none, 1⟩]
            = some (e, l₁ ++ l₂)
        ∧ (∀ a ∈ ([⟨5, "a", none, 0⟩, ⟨9, "b", none, 1⟩, ⟨9, "c", none, 1⟩] : List EEntry),
            a.pri ≤ e.pri)
        ∧ (∀ a ∈ l₁, a.pri < e.pri)) :=
  ⟨by simp, c3_priority_selection _ (by simp)⟩

/-! ## The shape of one ecommerce scheduler iteration -/

theorem ecomExtractLinks_props (join : String → String → String) (baseUrl : String)
    (anchors : List RawAnchor) :
    ∀ l ∈ ecomExtractLinks join baseUrl anchors,
      l.disallow = false ∧ strHasSub l.url "amazon.com" = true := by
  intro l hl
  simp only [ecomExtractLinks, List.mem_filterMap] at hl
  obtain ⟨a, _, heq⟩ := hl
  split at heq
  · exact absurd heq (by simp)
  · split at heq <;>
      [skip; skip] <;>
      · split at heq
        · obtain rfl := Option.some.inj heq
          exact ⟨rfl, by assumption⟩
        · exact absurd heq (by simp)

theorem enqueue_fold_length (visited : List String) (D cap : Nat) :
    ∀ (l : List EEntry) (fr : List EEntry),
      (l.foldl
          (fun fr en =>
            if en.url ∉ visited ∧ en.level ≤ D ∧ fr.length < cap then fr ++ [en] else fr)
          fr).length ≤ max fr.length cap := by
  intro l
  induction l with
  | nil => intro fr; simp
  | cons x xs ih =>
    intro fr
    rw [List.foldl_cons]
    by_cases hc : x.url ∉ visited ∧ x.level ≤ D ∧ fr.length < cap
    · rw [if_pos hc]
      refine le_trans (ih (fr ++ [x])) ?_
      have : (fr ++ [x]).length = fr.length + 1 := by simp
      rw [this]
      have hlt : fr.length + 1 ≤ cap := hc.2.2
      omega
    · rw [if_neg hc]
      exact ih fr

theorem enqueue_fold_mem (visited : List String) (D cap : Nat) :
    ∀ (l : List EEntry) (fr : List EEntry) (en : EEntry),
      en ∈ l.foldl
          (fun fr en =>
            if en.url ∉ visited ∧ en.level ≤ D ∧ fr.length < cap then fr ++ [en] else fr)
          fr →
        en ∈ fr ∨ en ∈ l := by
  intro l
  induction l with
  | nil => intro fr en h; exact Or.inl h
  | cons x xs ih =>
    intro fr en h
    rw [List.foldl_cons] at h
    by_cases hc : x.url ∉ visited ∧ x.level ≤ D ∧ fr.length < cap
    · rw [if_pos hc] at h
      rcases ih (fr ++ [x]) en h with hmem | hmem
      · rcases List.mem_append.mp hmem with hmem' | hmem'
        · exact Or.inl hmem'
        · exact Or.inr (by simpa using Or.inl (List.mem_singleton.mp hmem'))
      · exact Or.inr (List.mem_cons_of_mem x hmem)
    · rw [if_neg hc] at h
      rcases ih fr en h with hmem | hmem
      · exact Or.inl hmem
      · exact Or.inr (List.mem_cons_of_mem x hmem)

/-- Every iteration of the `crawl` loop body either discards the dequeued
entry (already visited or too deep) or visits it: marks it visited, records
exactly one page for it, appends its extracted edges, enqueues only
amazon-substring links, and increments the page count. -/
theorem ecomStep_shape (w : EWorld) (join : String → String → String)
    (cfg : ECfg) (st : ESt) (hne : st.frontier ≠ []) :
    ∃ e rest, pickMax st.frontier = some (e, rest)
      ∧ rest.length + 1 = st.frontier.length
      ∧ ((ecomStep w join cfg st = { st with frontier := rest }
            ∧ (e.url ∈ st.visited ∨ cfg.maxDepth < e.level))
         ∨ (∃ (page : EPage) (edges : List EEdge) (scores : List (String × ℚ))
              (fr' : List EEntry),
              ecomStep w join cfg st =
                { visited := e.url :: st.visited,
                  allLinks := st.allLinks ++ edges,
                  pagesData := st.pagesData ++ [page],
                  frontier := fr',
                  pageScores := scores,
                  pageCount := st.pageCount + 1 }
              ∧ fr'.length ≤ max rest.length (cfg.maxPages * 2)
              ∧ (∀ en ∈ fr', en ∈ rest ∨ strHasSub en.url "amazon.com" = true)
              ∧ page.url = e.url
              ∧ e.url ∉ st.visited
              ∧ (∀ ed ∈ edges,
                  ed.disallow = false ∧ strHasSub ed.target "amazon.com" = true))) := by
  obtain ⟨l₁, e, l₂, _, hpick, _, _⟩ := pickMax_spec st.frontier hne
  refine ⟨e, l₁ ++ l₂, hpick, ?_, ?_⟩
  · have : st.frontier.length = (l₁ ++ e :: l₂).length := by rw [‹st.frontier = _›]
    simp only [this, List.length_append, List.length_cons]
    omega
  · unfold ecomStep
    rw [hpick]
    by_cases hskip : e.url ∈ st.visited ∨ cfg.maxDepth < e.level
    · exact Or.inl ⟨by simp only [hskip, if_pos], hskip⟩
    · right
      simp only [hskip, if_neg, if_false]
      push_neg at hskip
      set links := ecomExtractLinks join e.url
        (match w e.url with
         | .ok _ _ _ anchors _ => anchors
         | .err _ => []) with hlinks
      refine ⟨_, _, _, _, rfl, ?_, ?_, ?_, hskip.1, ?_⟩
      · exact enqueue_fold_length _ _ _ _ _
      · intro en hen
        rcases enqueue_fold_mem _ _ _ _ _ en hen with h | h
        · exact Or.inl h
        · obtain ⟨lnk, hlnk, rfl⟩ := List.mem_map.mp h
          exact Or.inr (ecomExtractLinks_props _ _ _ lnk hlnk).2
      · cases w e.url <;> rfl
      · intro ed hed
        obtain ⟨lnk, hlnk, rfl⟩ := List.mem_map.mp hed
        have := ecomExtractLinks_props _ _ _ lnk hlnk
        exact ⟨this.1, this.2⟩

/-- Concrete `urljoin` stand-in for closed statements. -/
def joinConcat : String → String → String := fun b r => b ++ r

/-- A world in which every URL fetches an empty 200 page. -/
def emptyOkWorld : EWorld := fun _ => .ok 200 "" "" [] 0

/-! ## Claim C1: termination and the page-count bound -/

/-- Lexicographic termination measure for the `crawl` loop, flattened into
one natural number: visiting strictly decreases the first summand, skipping
strictly shrinks the frontier. -/
def ecomMeasure (cfg : ECfg) (st : ESt) : Nat :=
  (cfg.maxPages - st.pageCount) * (cfg.maxPages * 2 + 1) + st.frontier.length

theorem ecomStep_decreases (w : EWorld) (join : String → String → String)
    (cfg : ECfg) (st : ESt)
    (hne : st.frontier ≠ []) (hcount : st.pageCount < cfg.maxPages)
    (hlen : st.frontier.length ≤ cfg.maxPages * 2) :
    ecomMeasure cfg (ecomStep w join cfg st) < ecomMeasure cfg st
    ∧ (ecomStep w join cfg st).frontier.length ≤ cfg.maxPages * 2 := by
  obtain ⟨e, rest, _, hrest, hcases⟩ := ecomStep_shape w join cfg st hne
  rcases hcases with ⟨heq, _⟩ | ⟨page, edges, scores, fr', heq, hfr, _, _, _, _⟩
  · rw [heq]
    unfold ecomMeasure
    refine ⟨?_, ?_⟩
    · show (cfg.maxPages - st.pageCount) * (cfg.maxPages * 2 + 1) + rest.length
        < (cfg.maxPages - st.pageCount) * (cfg.maxPages * 2 + 1) + st.frontier.length
      omega
    · show rest.length ≤ cfg.maxPages * 2
      omega
  · rw [heq]
    unfold ecomMeasure
    have hfr' : fr'.length ≤ cfg.maxPages * 2 := by
      refine le_trans hfr ?_
      omega
    have hexp : (cfg.maxPages - st.pageCount) * (cfg.maxPages * 2 + 1) =
        (cfg.maxPages - (st.pageCount + 1)) * (cfg.maxPages * 2 + 1)
          + (cfg.maxPages * 2 + 1) := by
      have h1 : cfg.maxPages - st.pageCount = (cfg.maxPages - (st.pageCount + 1)) + 1 := by
        omega
      rw [h1, add_mul, one_mul]
    refine ⟨?_, ?_⟩
    · show (cfg.maxPages - (st.pageCount + 1)) * (cfg.maxPages * 2 + 1) + fr'.length
        < (cfg.maxPages - st.pageCount) * (cfg.maxPages * 2 + 1) + st.frontier.length
      omega
    · show fr'.length ≤ cfg.maxPages * 2
      exact hfr'

theorem ecomLoop_reaches_done (w : EWorld) (join : String → String → String)
    (cfg : ECfg) :
    ∀ fuel st, ecomMeasure cfg st < fuel → st.frontier.length ≤ cfg.maxPages * 2 →
      ecomDone cfg (ecomLoop w join cfg fuel st) := by
  intro fuel
  induction fuel with
  | zero => intro st h _; omega
  | succ fuel ih =>
    intro st h hlen
    rw [ecomLoop]
    by_cases hd : ecomDone cfg st
    · rw [if_pos hd]; exact hd
    · rw [if_neg hd]
      have hne : st.frontier ≠ [] := by
        intro hnil
        exact hd (Or.inl hnil)
      have hcount : st.pageCount < cfg.maxPages := by
        by_contra hc
        exact hd (Or.inr hc)
      obtain ⟨hdec, hlen'⟩ := ecomStep_decreases w join cfg st hne hcount hlen
      exact ih (ecomStep w join cfg st) (by omega) hlen'

theorem ecomLoop_pages_le (w : EWorld) (join : String → String → String)
    (cfg : ECfg) :
    ∀ fuel st, st.pagesData.length ≤ st.pageCount → st.pageCount ≤ cfg.maxPages →
      (ecomLoop w join cfg fuel st).pagesData.length ≤ cfg.maxPages := by
  intro fuel
  induction fuel with
  | zero => intro st h1 h2; exact le_trans h1 h2
  | succ fuel ih =>
    intro st h1 h2
    rw [ecomLoop]
    by_cases hd : ecomDone cfg st
    · rw [if_pos hd]; exact le_trans h1 h2
    · rw [if_neg hd]
      have hne : st.frontier ≠ [] := fun hnil => hd (Or.inl hnil)
      have hcount : st.pageCount < cfg.maxPages := by
        by_contra hc
        exact hd (Or.inr hc)
      obtain ⟨e, rest, _, _, hcases⟩ := ecomStep_shape w join cfg st hne
      rcases hcases with ⟨heq, _⟩ | ⟨page, edges, scores, fr', heq, _, _, _, _, _⟩
      · exact ih _ (by rw [heq]; exact h1) (by rw [heq]; exact h2)
      · refine ih _ ?_ ?_
        · rw [heq]
          simp only [List.length_append, List.length_cons, List.length_nil]
          omega
        · rw [heq]
          simp only []
          omega

/-- **C1.**  For every oracle, configuration with `max_pages > 0` and seed
query, the `crawl` loop reaches its termination condition (`urls_to_visit`
empty or `page_count == max_pages`) after finitely many iterations, and at
every point the number of recorded pages (`pages_data`, one entry per
completed fetch, successful or failed) is at most `max_pages`. -/
theorem c1_termination_and_page_bound (w : EWorld)
    (join : String → String → String) (cfg : ECfg) (query : String)
    (hpos : 0 < cfg.maxPages) :
    (∃ fuel, ecomDone cfg (ecomCrawl w join cfg query fuel))
    ∧ (∀ fuel, (ecomCrawl w join cfg query fuel).pagesData.length ≤ cfg.maxPages) := by
  constructor
  · refine ⟨ecomMeasure cfg (ecomInit query) + 1, ?_⟩
    apply ecomLoop_reaches_done w join cfg _ (ecomInit query) (by omega)
    show 1 ≤ cfg.maxPages * 2
    omega
  · intro fuel
    exact ecomLoop_pages_le w join cfg fuel (ecomInit query) (by simp [ecomInit])
      (by simp [ecomInit])

/-- **C1, witness**: the theorem applied to a concrete world (every fetch
fails), `max_pages = 2`, and a concrete seed query. -/
theorem c1_witness :
    (0 < (2 : Nat)) ∧
    ((∃ fuel,
        ecomDone ⟨2, 1⟩
          (ecomCrawl (fun _ => .err "offline") (fun b r => b ++ r) ⟨2, 1⟩ "laptop" fuel))
     ∧ (∀ fuel,
        (ecomCrawl (fun _ => .err "offline") (fun b r => b ++ r) ⟨2, 1⟩ "laptop"
            fuel).pagesData.length ≤ 2)) :=
  ⟨by decide,
   c1_termination_and_page_bound (fun _ => .err "offline") (fun b r => b ++ r)
     ⟨2, 1⟩ "laptop" (by decide)⟩

/-! ## Claim C2: no duplicate PageRecords per URL -/

theorem ecomLoop_nodup (w : EWorld) (join : String → String → String) (cfg : ECfg) :
    ∀ fuel st,
      st.pagesData.Pairwise (fun p q => p.url ≠ q.url) →
      (∀ p ∈ st.pagesData, p.url ∈ st.visited) →
      (ecomLoop w join cfg fuel st).pagesData.Pairwise (fun p q => p.url ≠ q.url) := by
  intro fuel
  induction fuel with
  | zero => intro st h1 _; exact h1
  | succ fuel ih =>
    intro st h1 h2
    rw [ecomLoop]
    by_cases hd : ecomDone cfg st
    · rw [if_pos hd]; exact h1
    · rw [if_neg hd]
      have hne : st.frontier ≠ [] := fun hnil => hd (Or.inl hnil)
      obtain ⟨e, rest, _, _, hcases⟩ := ecomStep_shape w join cfg st hne
      rcases hcases with ⟨heq, _⟩ | ⟨page, edges, scores, fr', heq, _, _, hpu, hnv, _⟩
      · exact ih _ (by rw [heq]; exact h1) (by rw [heq]; exact h2)
      · refine ih _ ?_ ?_
        · rw [heq]
          simp only []
          refine List.pairwise_append.mpr ⟨h1, by simp, ?_⟩
          intro p hp q hq
          rw [List.mem_singleton.mp hq, hpu]
          intro hcontra
          exact hnv (hcontra ▸ h2 p hp)
        · rw [heq]
          intro p hp
          simp only [] at hp ⊢
          rcases List.mem_append.mp hp with hp' | hp'
          · exact List.mem_cons_of_mem _ (h2 p hp')
          · rw [List.mem_singleton.mp hp', hpu]
            exact List.mem_cons_self _ _

/-- **C2.**  Within one crawl session, the recorded pages have pairwise
distinct URLs; moreover a dequeued frontier entry whose URL is already in
`visited_urls` is discarded (only the frontier changes), producing no
PageRecord — together with marking a URL visited before its fetch, this is
what makes the URLs unique. -/
theorem c2_no_duplicate_page_urls :
    (∀ (w : EWorld) (join : String → String → String) (cfg : ECfg)
        (query : String) (fuel : Nat),
      (ecomCrawl w join cfg query fuel).pagesData.Pairwise (fun p q => p.url ≠ q.url))
    ∧ (∀ (w : EWorld) (join : String → String → String) (cfg : ECfg) (st : ESt)
        (e : EEntry) (rest : List EEntry),
      pickMax st.frontier = some (e, rest) → e.url ∈ st.visited →
      ecomStep w join cfg st = { st with frontier := rest }) := by
  constructor
  · intro w join cfg query fuel
    exact ecomLoop_nodup w join cfg fuel (ecomInit query) (by simp [ecomInit])
      (by simp [ecomInit])
  · intro w join cfg st e rest hp hv
    have hne : st.frontier ≠ [] := by
      intro h
      rw [h] at hp
      simp [pickMax, pyMax] at hp
    obtain ⟨e', rest', hp', _, hcases⟩ := ecomStep_shape w join cfg st hne
    have hee : e' = e ∧ rest' = rest := by
      have h := hp.symm.trans hp'
      have h' := Option.some.inj h
      exact ⟨(Prod.mk.injEq .. ▸ h').1.symm, (Prod.mk.injEq .. ▸ h').2.symm⟩
    obtain ⟨rfl, rfl⟩ := hee
    rcases hcases with ⟨heq, _⟩ | ⟨_, _, _, _, _, _, _, _, hnv, _⟩
    · exact heq
    · exact absurd hv hnv

/-- A state whose only frontier entry is already visited. -/
def stVisited : ESt :=
  { visited := ["https://www.amazon.com/x"], allLinks := [], pagesData := [],
    frontier := [{ pri := 100, url := "https://www.amazon.com/x",
                   referer := none, level := 0 }],
    pageScores := [], pageCount := 0 }

/-- **C2, witness**: dequeuing an already-visited URL discards it. -/
theorem c2_witness :
    pickMax stVisited.frontier =
      some ({ pri := 100, url := "https://www.amazon.com/x", referer := none,
              level := 0 }, [])
    ∧ ("https://www.amazon.com/x" ∈ stVisited.visited)
    ∧ ecomStep emptyOkWorld joinConcat ⟨3, 2⟩ stVisited = { stVisited with frontier := [] } :=
  ⟨by decide, by decide,
   c2_no_duplicate_page_urls.2 emptyOkWorld joinConcat ⟨3, 2⟩ stVisited
     { pri := 100, url := "https://www.amazon.com/x", referer := none, level := 0 } []
     (by decide) (by decide)⟩

/-! ## Browser crawler invariants (used by claims C4 and C9) -/

theorem browserExtractLinks_disallow (rules : Option RobotsRules) (src : Url)
    (anchors : List BAnchor) :
    ∀ l ∈ browserExtractLinks rules src anchors,
      l.disallow = !(browserIsAllowed rules l.target.path) := by
  intro l hl
  simp only [browserExtractLinks, List.mem_filterMap] at hl
  obtain ⟨a, _, heq⟩ := hl
  split at heq
  · obtain rfl := Option.some.inj heq
    rfl
  · exact absurd heq (by simp)

theorem browserExtractLinks_targets (rules : Option RobotsRules) (src : Url)
    (anchors : List BAnchor) :
    (browserExtractLinks rules src anchors).map (fun l => l.target)
      = (anchors.filter (fun a => a.isHttp)).map (fun a => a.target) := by
  induction anchors with
  | nil => rfl
  | cons a as ih =>
    by_cases h : a.isHttp = true
    · simp only [browserExtractLinks, List.filterMap_cons, h, if_true, List.filter_cons,
        List.map_cons]
      exact congrArg _ ih
    · simp only [browserExtractLinks, List.filterMap_cons, h, Bool.false_eq_true, if_false,
        List.filter_cons]
      simpa [h] using ih

theorem browserCrawlPage_of_disallowed (w : BWorld) (rules : Option RobotsRules)
    (mp md : Nat) :
    ∀ (fuel : Nat) (st : BSt) (url : Url) (depth : Nat) (ref : Option Url),
      browserIsAllowed rules url.path = false →
      browserCrawlPage w rules mp md fuel st url depth ref = st := by
  intro fuel st url depth ref h
  cases fuel with
  | zero => rfl
  | succ fuel =>
    rw [browserCrawlPage]
    by_cases h1 : mp ≤ st.visited.length
    · rw [if_pos h1]
    · rw [if_neg h1]
      by_cases h2 : md < depth
      · rw [if_pos h2]
      · rw [if_neg h2]
        by_cases h3 : url ∈ st.visited
        · rw [if_pos h3]
        · rw [if_neg h3, if_pos (by rw [h]; rfl)]

theorem browserCrawlKids_urlsData {cp : BSt → Url → Option Url → BSt} {pu : Url}
    {P : BPage → Prop}
    (h : ∀ s u r, isInternalLink pu u = true →
      ∀ p ∈ (cp s u r).urlsData, p ∈ s.urlsData ∨ P p) :
    ∀ (links : List BLink) (st : BSt),
      ∀ p ∈ (browserCrawlKids cp pu links st).urlsData, p ∈ st.urlsData ∨ P p := by
  intro links
  induction links with
  | nil => intro st p hp; exact Or.inl hp
  | cons l ls ih =>
    intro st p hp
    rw [browserCrawlKids] at hp
    rcases ih _ p hp with hmem | hP
    · by_cases hint : isInternalLink pu l.target = true
      · rw [if_pos hint] at hmem
        exact h st l.target (some pu) hint p hmem
      · rw [if_neg hint] at hmem
        exact Or.inl hmem
    · exact Or.inr hP

/-- Every page the browser crawler adds to `urls_data` passed the
`_is_allowed` re-check at the top of `_crawl_page`. -/
theorem browserCrawlPage_urls_allowed (w : BWorld) (rules : Option RobotsRules)
    (mp md : Nat) :
    ∀ (fuel : Nat) (st : BSt) (url : Url) (depth : Nat) (ref : Option Url),
      ∀ p ∈ (browserCrawlPage w rules mp md fuel st url depth ref).urlsData,
        p ∈ st.urlsData ∨ browserIsAllowed rules p.url.path = true := by
  intro fuel
  induction fuel with
  | zero => intro st url depth ref p hp; exact Or.inl hp
  | succ fuel ih =>
    intro st url depth ref p hp
    rw [browserCrawlPage] at hp
    by_cases h1 : mp ≤ st.visited.length
    · rw [if_pos h1] at hp; exact Or.inl hp
    · rw [if_neg h1] at hp
      by_cases h2 : md < depth
      · rw [if_pos h2] at hp; exact Or.inl hp
      · rw [if_neg h2] at hp
        by_cases h3 : url ∈ st.visited
        · rw [if_pos h3] at hp; exact Or.inl hp
        · rw [if_neg h3] at hp
          by_cases h4 : browserIsAllowed rules url.path = true
          · rw [if_neg (by rw [h4]; simp)] at hp
            cases hw : w url with
            | none => rw [hw] at hp; exact Or.inl hp
            | some doc =>
              rw [hw] at hp
              dsimp only at hp
              by_cases h5 : depth < md
              · rw [if_pos h5] at hp
                have hkids := @browserCrawlKids_urlsData
                  (fun s u r => browserCrawlPage w rules mp md fuel s u (depth + 1) r)
                  url (fun p => browserIsAllowed rules p.url.path = true)
                  (fun s u r _ q hq => ih s u (depth + 1) r q hq) _ _ p hp
                rcases hkids with hmem | hP
                · simp only [List.mem_append, List.mem_singleton] at hmem
                  rcases hmem with hold | rfl
                  · exact Or.inl hold
                  · exact Or.inr h4
                · exact Or.inr hP
              · rw [if_neg h5] at hp
                simp only [List.mem_append, List.mem_singleton] at hp
                rcases hp with hold | rfl
                · exact Or.inl hold
                · exact Or.inr h4
          · rw [if_pos (by simp [Bool.not_eq_true] at h4; rw [h4]; rfl)] at hp
            exact Or.inl hp

/-- Every page the browser crawler adds shares its host with the page that
spawned it: only `_is_internal_link` targets are recursed into. -/
theorem browserCrawlPage_urls_host (w : BWorld) (rules : Option RobotsRules)
    (mp md : Nat) :
    ∀ (fuel : Nat) (st : BSt) (url : Url) (depth : Nat) (ref : Option Url),
      ∀ p ∈ (browserCrawlPage w rules mp md fuel st url depth ref).urlsData,
        p ∈ st.urlsData ∨ p.url.host = url.host := by
  intro fuel
  induction fuel with
  | zero => intro st url depth ref p hp; exact Or.inl hp
  | succ fuel ih =>
    intro st url depth ref p hp
    rw [browserCrawlPage] at hp
    by_cases h1 : mp ≤ st.visited.length
    · rw [if_pos h1] at hp; exact Or.inl hp
    · rw [if_neg h1] at hp
      by_cases h2 : md < depth
      · rw [if_pos h2] at hp; exact Or.inl hp
      · rw [if_neg h2] at hp
        by_cases h3 : url ∈ st.visited
        · rw [if_pos h3] at hp; exact Or.inl hp
        · rw [if_neg h3] at hp
          by_cases h4 : browserIsAllowed rules url.path = true
          · rw [if_neg (by rw [h4]; simp)] at hp
            cases hw : w url with
            | none => rw [hw] at hp; exact Or.inl hp
            | some doc =>
              rw [hw] at hp
              dsimp only at hp
              by_cases h5 : depth < md
              · rw [if_pos h5] at hp
                have hkids := @browserCrawlKids_urlsData
                  (fun s u r => browserCrawlPage w rules mp md fuel s u (depth + 1) r)
                  url (fun p => p.url.host = url.host)
                  (fun s u r hint q hq => by
                    rcases ih s u (depth + 1) r q hq with hmem | hhost
                    · exact Or.inl hmem
                    · refine Or.inr ?_
                      show q.url.host = url.host
                      rw [hhost]
                      exact (of_decide_eq_true hint).symm) _ _ p hp
                rcases hkids with hmem | hP
                · simp only [List.mem_append, List.mem_singleton] at hmem
                  rcases hmem with hold | rfl
                  · exact Or.inl hold
                  · exact Or.inr rfl
                · exact Or.inr hP
              · rw [if_neg h5] at hp
                simp only [List.mem_append, List.mem_singleton] at hp
                rcases hp with hold | rfl
                · exact Or.inl hold
                · exact Or.inr rfl
          · rw [if_pos (by simp [Bool.not_eq_true] at h4; rw [h4]; rfl)] at hp
            exact Or.inl hp

theorem pickMax_rest_eq (l : List EEntry) (e : EEntry) (rest : List EEntry)
    (h : pickMax l = some (e, rest)) : rest = l.erase e := by
  unfold pickMax at h
  cases hm : pyMax l with
  | none => rw [hm] at h; exact absurd h (by simp)
  | some m =>
    rw [hm] at h
    simp only [Option.map_some'] at h
    obtain ⟨rfl, hr⟩ := Prod.mk.injEq .. ▸ Option.some.inj h
    exact hr.symm

/-- If the frontier is empty the loop body is the identity. -/
theorem ecomStep_empty (w : EWorld) (join : String → String → String) (cfg : ECfg)
    (st : ESt) (hempty : st.frontier = []) : ecomStep w join cfg st = st := by
  unfold ecomStep
  have : pickMax st.frontier = none := by rw [hempty]; rfl
  rw [this]

/-! ## Claim C4 (corrected): robots flag on edges and re-check at dequeue -/

/-- A session state whose frontier holds one entry for a URL that the robots
policy `Disallow: /admin/*` forbids. -/
def stAdmin : ESt :=
  { visited := [], allLinks := [], pagesData := [],
    frontier :=
      [{ pri := 100, url := "https://www.amazon.com/admin/settings",
         referer := none, level := 0 }],
    pageScores := [], pageCount := 0 }

/-- **C4, counterexample.**  Under the policy `Disallow: /admin/*`, the URL
`/admin/settings` is robots-disallowed, yet the ecommerce crawler's loop
body performs no robots check when dequeuing it: one iteration fetches it
and records a PageRecord for it, contradicting "a robots-disallowed URL
never produces a PageRecord". -/
theorem c4_counterexample :
    browserIsAllowed (some { allowed := [], disallowed := ["/admin/*"] })
        "/admin/settings" = false
    ∧ (ecomStep emptyOkWorld joinConcat ⟨3, 2⟩ stAdmin).pagesData.map (fun p => p.url)
        = ["https://www.amazon.com/admin/settings"] := by
  exact ⟨by decide, rfl⟩

/-- **C4, amended.**  In the browser crawler a discovered http(s) link is
recorded as a LinkEdge whose `disallow` flag is set exactly when the robots
policy disallows its target's path; robots permission is re-checked at the
top of `_crawl_page` when the crawler takes the URL up, a disallowed URL is
discarded with the state unchanged, and consequently every recorded page
passed the robots check — so a robots-disallowed URL never produces a
PageRecord *there*.  The ecommerce crawler, by contrast, records every
extracted link with `disallow = False` and performs no robots check at
dequeue (so a dequeued robots-disallowed URL does produce a PageRecord, as
the counterexample shows). -/
theorem c4_amended_robots_recheck :
    (∀ (rules : Option RobotsRules) (src : Url) (anchors : List BAnchor),
        ∀ l ∈ browserExtractLinks rules src anchors,
          l.disallow = !(browserIsAllowed rules l.target.path))
    ∧ (∀ (w : BWorld) (rules : Option RobotsRules) (mp md fuel : Nat) (st : BSt)
          (url : Url) (depth : Nat) (ref : Option Url),
        browserIsAllowed rules url.path = false →
        browserCrawlPage w rules mp md fuel st url depth ref = st)
    ∧ (∀ (w : BWorld) (rules : Option RobotsRules) (mp md fuel : Nat) (st : BSt)
          (url : Url) (depth : Nat) (ref : Option Url),
        ∀ p ∈ (browserCrawlPage w rules mp md fuel st url depth ref).urlsData,
          p ∈ st.urlsData ∨ browserIsAllowed rules p.url.path = true)
    ∧ (∀ (w : EWorld) (join : String → String → String) (cfg : ECfg) (st : ESt),
        ∀ ed ∈ (ecomStep w join cfg st).allLinks, ed ∈ st.allLinks ∨ ed.disallow = false) := by
  refine ⟨browserExtractLinks_disallow, browserCrawlPage_of_disallowed,
    browserCrawlPage_urls_allowed, ?_⟩
  intro w join cfg st ed hed
  by_cases hfr : st.frontier = []
  · rw [ecomStep_empty w join cfg st hfr] at hed
    exact Or.inl hed
  · obtain ⟨e, rest, _, _, hcases⟩ := ecomStep_shape w join cfg st hfr
    rcases hcases with ⟨heq, _⟩ | ⟨page, edges, scores, fr', heq, _, _, _, _, hedges⟩
    · rw [heq] at hed
      exact Or.inl hed
    · rw [heq] at hed
      simp only [List.mem_append] at hed
      rcases hed with hold | hnew
      · exact Or.inl hold
      · exact Or.inr (hedges ed hnew).1

/-- **C4, witness** for the amended theorem: with `Disallow: /admin/*`, the
browser crawler discards a dequeued `/admin/settings` URL untouched. -/
theorem c4_amended_witness :
    browserIsAllowed (some { allowed := [], disallowed := ["/admin/*"] })
        "/admin/settings" = false
    ∧ browserCrawlPage (fun _ => none)
        (some { allowed := [], disallowed := ["/admin/*"] }) 10 3 5
        { visited := [], urlsData := [], linksData := [] }
        { host := "www.amazon.com", path := "/admin/settings" } 0 none
      = { visited := [], urlsData := [], linksData := [] } :=
  ⟨by decide,
   c4_amended_robots_recheck.2.1 (fun _ => none)
     (some { allowed := [], disallowed := ["/admin/*"] }) 10 3 5
     { visited := [], urlsData := [], linksData := [] }
     { host := "www.amazon.com", path := "/admin/settings" } 0 none (by decide)⟩

/-! ## Claim C9 (corrected): external links -/

/-- **C9, counterexample.**  A discovered link to `http://other.test/c`
(an external domain; its URL does not contain `'amazon.com'`) produces *no*
LinkEdge at all in the ecommerce crawler — `extract_links` filters it out —
contradicting "recorded as a LinkEdge but never enqueued". -/
theorem c9_counterexample :
    strHasSub "http://other.test/c" "amazon.com" = false
    ∧ ecomExtractLinks joinConcat "https://www.amazon.com/s?k=x"
        [{ href := "http://other.test/c", text := "c", nofollow := false }] = [] := by
  exact ⟨by decide, rfl⟩

/-- **C9, amended.**  In the browser crawler every discovered http(s)
anchor is recorded as a LinkEdge, and only targets on the current page's
host are followed, so a target on a different host (in particular a
different registrable domain) never produces a PageRecord.  In the
ecommerce crawler a link is recorded and eligible for the frontier iff its
resolved URL contains the substring `'amazon.com'`: links without the
substring (external links among them) are neither recorded as LinkEdges
nor enqueued, and every frontier entry the loop adds carries that
substring. -/
theorem c9_amended_external_links :
    (∀ (rules : Option RobotsRules) (src : Url) (anchors : List BAnchor),
        (browserExtractLinks rules src anchors).map (fun l => l.target)
          = (anchors.filter (fun a => a.isHttp)).map (fun a => a.target))
    ∧ (∀ (w : BWorld) (rules : Option RobotsRules) (mp md fuel : Nat) (st : BSt)
          (url : Url) (depth : Nat) (ref : Option Url),
        ∀ p ∈ (browserCrawlPage w rules mp md fuel st url depth ref).urlsData,
          p ∈ st.urlsData ∨ p.url.host = url.host)
    ∧ (∀ (join : String → String → String) (baseUrl : String) (anchors : List RawAnchor),
        ∀ l ∈ ecomExtractLinks join baseUrl anchors,
          strHasSub l.url "amazon.com" = true)
    ∧ (∀ (w : EWorld) (join : String → String → String) (cfg : ECfg) (st : ESt),
        ∀ en ∈ (ecomStep w join cfg st).frontier,
          en ∈ st.frontier ∨ strHasSub en.url "amazon.com" = true) := by
  refine ⟨browserExtractLinks_targets, browserCrawlPage_urls_host,
    fun join baseUrl anchors l hl => (ecomExtractLinks_props join baseUrl anchors l hl).2,
    ?_⟩
  intro w join cfg st en hen
  by_cases hfr : st.frontier = []
  · rw [ecomStep_empty w join cfg st hfr] at hen
    exact Or.inl hen
  · obtain ⟨e, rest, hpick, _, hcases⟩ := ecomStep_shape w join cfg st hfr
    have hsub : rest = st.frontier.erase e := pickMax_rest_eq _ _ _ hpick
    rcases hcases with ⟨heq, _⟩ | ⟨page, edges, scores, fr', heq, _, hfr', _, _, _⟩
    · rw [heq] at hen
      rw [hsub] at hen
      exact Or.inl (List.erase_subset _ _ hen)
    · rw [heq] at hen
      rcases hfr' en hen with hrest | hsubstr
      · rw [hsub] at hrest
        exact Or.inl (List.erase_subset _ _ hrest)
      · exact Or.inr hsubstr

/-- **C9, witness** for the amended theorem: an internal amazon link is
recorded by `extract_links` and carries the substring. -/
theorem c9_amended_witness :
    ({ url := "https://www.amazon.com/a", text := "a", nofollow := false,
       disallow := false } : ELink) ∈
      ecomExtractLinks joinConcat "https://www.amazon.com/s?k=x"
        [{ href := "https://www.amazon.com/a", text := "a", nofollow := false }]
    ∧ strHasSub "https://www.amazon.com/a" "amazon.com" = true :=
  ⟨by decide,
   c9_amended_external_links.2.2.1 joinConcat "https://www.amazon.com/s?k=x"
     [{ href := "https://www.amazon.com/a", text := "a", nofollow := false }]
     { url := "https://www.amazon.com/a", text := "a", nofollow := false,
       disallow := false }
     (by decide)⟩

/-! ## Claim C6: PageRank — duplicate collapse, conservation, absent URLs -/

theorem prSuccs_subset (E : Finset (String × String)) (u : String) :
    prSuccs E u ⊆ prNodes E := by
  intro v hv
  simp only [prSuccs, Finset.mem_image, Finset.mem_filter] at hv
  obtain ⟨p, ⟨hpE, _⟩, rfl⟩ := hv
  exact Finset.mem_union_right _ (Finset.mem_image_of_mem _ hpE)

theorem sum_div_card (N : Finset String) (hne : N.Nonempty) (c : ℚ) :
    ∑ _v ∈ N, c / (N.card : ℚ) = c := by
  have hn : ((N.card : ℚ)) ≠ 0 := by
    exact_mod_cast Finset.card_ne_zero.mpr hne
  rw [Finset.sum_const, nsmul_eq_mul]
  field_simp

/-- Each node passes on its full score in one iteration: along its edges,
or uniformly to all nodes if it is dangling. -/
theorem prContrib_row_sum (E : Finset (String × String)) (u : String)
    (hne : (prNodes E).Nonempty) :
    ∑ v ∈ prNodes E, prContrib E u v = 1 := by
  by_cases hd : prSuccs E u = ∅
  · simp only [prContrib, hd, if_true]
    simpa using sum_div_card (prNodes E) hne 1
  · simp only [prContrib, hd, if_false]
    have hsub := prSuccs_subset E u
    rw [Finset.sum_ite_mem, Finset.inter_eq_right.mpr hsub]
    have hscard : ((prSuccs E u).card : ℚ) ≠ 0 := by
      exact_mod_cast Finset.card_ne_zero.mpr (Finset.nonempty_iff_ne_empty.mpr hd)
    rw [Finset.sum_const, nsmul_eq_mul]
    field_simp

theorem prNext_sum (E : Finset (String × String)) (hne : (prNodes E).Nonempty)
    (x : String → ℚ) (hx : ∑ v ∈ prNodes E, x v = 1) :
    ∑ v ∈ prNodes E, prNext E x v = 1 := by
  unfold prNext
  rw [Finset.sum_add_distrib]
  have h1 : ∑ _v ∈ prNodes E, (1 - damping) / ((prNodes E).card : ℚ) = 1 - damping :=
    sum_div_card (prNodes E) hne (1 - damping)
  have h2 : ∑ v ∈ prNodes E, damping * ∑ u ∈ prNodes E, x u * prContrib E u v
      = damping := by
    rw [← Finset.mul_sum, Finset.sum_comm]
    have hrow : ∀ u ∈ prNodes E, ∑ v ∈ prNodes E, x u * prContrib E u v = x u := by
      intro u hu
      rw [← Finset.mul_sum, prContrib_row_sum E u hne, mul_one]
    rw [Finset.sum_congr rfl hrow, hx, mul_one]
  rw [h1, h2]
  ring

theorem prIter_sum (E : Finset (String × String)) (hne : (prNodes E).Nonempty) :
    ∀ k, ∑ v ∈ prNodes E, prIter E k v = 1 := by
  intro k
  induction k with
  | zero => simpa [prIter] using sum_div_card (prNodes E) hne 1
  | succ k ih => exact prNext_sum E hne (prIter E k) ih

/-- **C6.**  Duplicate `(source, target)` rows collapse to one edge of the
`DiGraph` (so they contribute a single unit of weight); for every graph
with at least one node — dangling nodes included — the importance scores
over the graph's nodes sum to exactly 1 after every iteration; and a page
whose URL is absent from the graph receives importance 0 from
`.map(pagerank).fillna(0)`. -/
theorem c6_pagerank_scoring :
    (∀ (links : List (String × String)) (e : String × String),
        graphOfLinks (e :: e :: links) = graphOfLinks (e :: links))
    ∧ (∀ E : Finset (String × String), (prNodes E).Nonempty →
        ∀ k, ∑ v ∈ prNodes E, prIter E k v = 1)
    ∧ (∀ (links : List (String × String)) (iters : Nat) (url : String),
        url ∉ prNodes (graphOfLinks links) →
        importanceOf (pagerankScores links iters) url = 0) := by
  refine ⟨?_, prIter_sum, ?_⟩
  · intro links e
    simp [graphOfLinks, List.toFinset_cons]
  · intro links iters url h
    simp [importanceOf, pagerankScores, h]

/-- **C6, witness**: the 3-node chain a→b→c of the specification's dangling
scenario (c has no outgoing edges), plus a URL outside the graph. -/
theorem c6_witness :
    ((prNodes (graphOfLinks [("a", "b"), ("b", "c")])).Nonempty
      ∧ ∀ k, ∑ v ∈ prNodes (graphOfLinks [("a", "b"), ("b", "c")]),
          prIter (graphOfLinks [("a", "b"), ("b", "c")]) k v = 1)
    ∧ ("z" ∉ prNodes (graphOfLinks [("a", "b"), ("b", "c")])
      ∧ importanceOf (pagerankScores [("a", "b"), ("b", "c")] 20) "z" = 0) :=
  ⟨⟨⟨"a", by decide⟩, c6_pagerank_scoring.2.1 _ ⟨"a", by decide⟩⟩,
   ⟨by decide, c6_pagerank_scoring.2.2 [("a", "b"), ("b", "c")] 20 "z" (by decide)⟩⟩

end Crawler
